import Mathlib

/-!
# Launchpad driver (`launchpad.go`): embedding and verified properties

The Go package drives an 8x8 grid controller through the external `portmidi`
library.  The embedding below follows `launchpad.go` function by function.

* Go's `int64` (and `int`, taken to be 64 bits wide) is modelled by `Int`
  with every arithmetic result passed through `wrap64` (two's complement).
* Go's `/` and `%` on integers truncate toward zero: `Int.tdiv`, `Int.tmod`.
* A Go function returning `(value, error)` returns a pair whose second
  component is an `Option Error` (`none` is Go's `nil` error).
* The `portmidi` streams are external.  They are modelled by a scripted
  stream: the answer to each call is a function of the calls received so
  far, and every call is recorded.
-/

namespace Launchpad

/-! ## Machine integers -/

/-- Two's complement reduction of an integer to the `int64` range. -/
def wrap64 (z : Int) : Int :=
  (z + 9223372036854775808) % 18446744073709551616 - 9223372036854775808

/-- The value is representable as an `int64`. -/
def inInt64 (z : Int) : Prop :=
  -9223372036854775808 ≤ z ∧ z < 9223372036854775808

instance (z : Int) : Decidable (inInt64 z) := by
  unfold inInt64; exact inferInstance

/-- Go `a + b` on `int64`. -/
def add64 (a b : Int) : Int := wrap64 (a + b)

/-- Go `a - b` on `int64`. -/
def sub64 (a b : Int) : Int := wrap64 (a - b)

/-- Go `a * b` on `int64`. -/
def mul64 (a b : Int) : Int := wrap64 (a * b)

/-- Go `a / b` on `int64`: the quotient truncated toward zero. -/
def div64 (a b : Int) : Int := wrap64 (a.tdiv b)

/-- Go `a % b` on `int64`: the remainder has the sign of the dividend. -/
def rem64 (a b : Int) : Int := wrap64 (a.tmod b)

/-! ## Data model -/

/-- Go's `error`, identified with its message. -/
abbrev Error := String

/-- The struct `Hit` of `launchpad.go`. -/
structure Hit where
  X : Int
  Y : Int
deriving DecidableEq

/-- Modelled from the spec: `portmidi.Event` is declared in the external
`portmidi` package; the input stream yields records of a status byte, a
first data byte and a timestamp.  `Read` uses `Status` and `Data1`. -/
structure Event where
  Timestamp : Int
  Status : Int
  Data1 : Int
deriving DecidableEq

/-- A call received by a `portmidi.Stream`. -/
inductive StreamCall where
  | Read (max : Int)
  | WriteShort (status data1 data2 : Int)
  | Close
deriving DecidableEq

/-- Modelled from the spec: `portmidi.Stream` is declared in the external
`portmidi` package (`read(maxCount)`, `writeShort(status, data1, data2)`,
`close()`).  The stream is scripted: the answer to a call is a function of
the calls received before it, and `calls` records every call in order. -/
structure Stream where
  onRead : List StreamCall → Int → Except Error (List Event)
  onWriteShort : List StreamCall → Int → Int → Int → Option Error
  onClose : List StreamCall → Option Error
  calls : List StreamCall

/-- Method `Stream.Read(max)`: the scripted answer, and the call recorded. -/
def Stream.Read (s : Stream) (max : Int) : Except Error (List Event) × Stream :=
  (s.onRead s.calls max, { s with calls := s.calls ++ [StreamCall.Read max] })

/-- Method `Stream.WriteShort(status, data1, data2)`. -/
def Stream.WriteShort (s : Stream) (status data1 data2 : Int) : Option Error × Stream :=
  (s.onWriteShort s.calls status data1 data2,
   { s with calls := s.calls ++ [StreamCall.WriteShort status data1 data2] })

/-- Method `Stream.Close()`. -/
def Stream.Close (s : Stream) : Option Error × Stream :=
  (s.onClose s.calls, { s with calls := s.calls ++ [StreamCall.Close] })

end Launchpad

/-- The struct `Launchpad` of `launchpad.go`: the two streams it owns. -/
structure Launchpad where
  inputStream : Launchpad.Stream
  outputStream : Launchpad.Stream

namespace Launchpad

/-! ## `Read` (lines 70-84) -/

/-- The body of the `for _, evt := range evts` loop of `Read`: appends the
hit of `evt` to `hits` when `evt.Data1 > 0`. -/
def readStep (hits : List Hit) (evt : Event) : List Hit :=
  if evt.Data1 > 0 then
    let x := rem64 evt.Status 8
    let y := sub64 7 (div64 (sub64 evt.Status x) 16)
    hits ++ [{ X := wrap64 x, Y := wrap64 y }]
  else
    hits

/-- Method `Launchpad.Read`: one `inputStream.Read(64)`; on error the hits are
`nil` and the error is returned, otherwise the events are decoded in order. -/
def Read (l : Launchpad) : (List Hit × Option Error) × Launchpad :=
  match l.inputStream.Read 64 with
  | (Except.error err, s) => (([], some err), { l with inputStream := s })
  | (Except.ok evts, s) => ((evts.foldl readStep [], none), { l with inputStream := s })

/-! ## `Light` and `Reset` (lines 86-94) -/

/-- The expression `x + 16*(7-y)` of `Light`, converted to `int64`. -/
def lightNote (x y : Int) : Int :=
  wrap64 (add64 x (mul64 16 (sub64 7 y)))

/-- The expression `16*g + r + 8 + 4` of `Light`, converted to `int64`. -/
def lightVelocity (g r : Int) : Int :=
  wrap64 (add64 (add64 (add64 (mul64 16 g) r) 8) 4)

/-- Method `Launchpad.Light`: one `WriteShort(0x90, note, velocity)` on the
output stream, whose result is returned. -/
def Light (l : Launchpad) (x y g r : Int) : Option Error × Launchpad :=
  let note := lightNote x y
  let velocity := lightVelocity g r
  match l.outputStream.WriteShort 0x90 note velocity with
  | (err, s) => (err, { l with outputStream := s })

/-- Method `Launchpad.Reset`: one `WriteShort(0xb0, 0, 0)`. -/
def Reset (l : Launchpad) : Option Error × Launchpad :=
  match l.outputStream.WriteShort 0xb0 0 0 with
  | (err, s) => (err, { l with outputStream := s })

/-! ## `Cleanup` (lines 96-101) -/

/-- Method `Launchpad.Cleanup`: closes the input stream; when that fails the
error is returned at once, otherwise the output stream is closed and the
result of that close is returned. -/
def Cleanup (l : Launchpad) : Option Error × Launchpad :=
  match l.inputStream.Close with
  | (some err, s) => (some err, { l with inputStream := s })
  | (none, s) =>
    match l.outputStream.Close with
    | (err, s') => (err, { inputStream := s, outputStream := s' })

/-! ## `discover` (lines 103-124) -/

/-- Modelled from the spec: `portmidi.DeviceInfo` is declared in the external
`portmidi` package; an enumerated device has a name and advertises input
and output capability. -/
structure DeviceInfo where
  Name : String
  IsInputAvailable : Bool
  IsOutputAvailable : Bool
deriving DecidableEq

/-- Whether `sub` occurs in `s` as a contiguous block, scanning the start
positions from left to right. -/
def containsChars (sub : List Char) : List Char → Bool
  | [] => sub.isPrefixOf []
  | c :: cs => sub.isPrefixOf (c :: cs) || containsChars sub cs

/-- Go's `strings.Contains(s, substr)`: `substr` occurs in `s`.  Go compares
bytes; for the ASCII pattern "Launchpad" and a UTF-8 name that is the same
as comparing characters. -/
def strings.Contains (s substr : String) : Bool :=
  containsChars substr.toList s.toList

/-- The body of the `for` loop of `discover` at index `i`, on the pair of
local variables `(in, out)`. -/
def discoverStep (i : Int) (info : DeviceInfo) (st : Int × Int) : Int × Int :=
  if strings.Contains info.Name "Launchpad" then
    let inIdx := if info.IsInputAvailable then i else st.1
    let outIdx := if info.IsOutputAvailable then i else st.2
    (inIdx, outIdx)
  else
    st

/-- The loop `for i := 0; i < portmidi.CountDevices(); i++` of `discover`,
entered at index `i` with the devices from index `i` on still to visit.
The index never overflows: it stays below the device count, itself an `int`. -/
def discoverLoop : List DeviceInfo → Int → Int × Int → Int × Int
  | [], _, st => st
  | info :: rest, i, st => discoverLoop rest (i + 1) (discoverStep i info st)

/-- The error message of `discover`. -/
def errNoLaunchpad : Error := "portmidi: No Launchpad is connected."

/-- Function `discover`, on the list of devices that `portmidi` enumerates
(`GetDeviceInfo(i)` for `i` from `0` to `CountDevices() - 1`).  Returns
`(input, output, err)`; on failure the two ids keep Go's zero value. -/
def discover (devices : List DeviceInfo) : Int × Int × Option Error :=
  let st := discoverLoop devices 0 (-1, -1)
  if st.1 == -1 || st.2 == -1 then
    (0, 0, some errNoLaunchpad)
  else
    (st.1, st.2, none)

/-! ## `New` (lines 35-49) -/

/-- Modelled from the spec: the external `portmidi` library, with the devices
it enumerates and the scripted outcome of `NewInputStream(id, bufferSize)`
and of `NewOutputStream(id, bufferSize, latency)`. -/
structure Portmidi where
  devices : List DeviceInfo
  onNewInputStream : Int → Int → Except Error Stream
  onNewOutputStream : Int → Int → Int → Except Error Stream

/-- What a call of `New` leaves behind: the two Go results, and every stream
`portmidi` opened during the call, in the state `New` leaves it in. -/
structure NewResult where
  pad : Option Launchpad
  err : Option Error
  opened : List Stream

/-- Function `New`: `discover`, then the input stream, then the output
stream; each failure returns `nil` and the error at once. -/
def New (pm : Portmidi) : NewResult :=
  match discover pm.devices with
  | (_, _, some err) => { pad := none, err := some err, opened := [] }
  | (input, output, none) =>
    match pm.onNewInputStream input 1024 with
    | Except.error err => { pad := none, err := some err, opened := [] }
    | Except.ok inStream =>
      match pm.onNewOutputStream output 1024 0 with
      | Except.error err => { pad := none, err := some err, opened := [inStream] }
      | Except.ok outStream =>
        { pad := some { inputStream := inStream, outputStream := outStream },
          err := none, opened := [inStream, outStream] }

/-- A stream is still open when it has received no `Close` call. -/
def Stream.isOpen (s : Stream) : Bool :=
  !(s.calls.contains StreamCall.Close)

/-! ## `Listen` (lines 51-68) -/

/-- What the goroutine started by `Listen` does, in order. -/
inductive Action where
  | Sleep (nanoseconds : Int)
  | ReadCall
  | Send (hit : Hit)
deriving DecidableEq

/-- One iteration of the `for` loop of the goroutine: sleep 10 ms, `Read`,
`continue` on error, otherwise send each hit on the channel in order. -/
def listenIter (st : Launchpad × List Action) : Launchpad × List Action :=
  let trace := st.2 ++ [Action.Sleep (10 * 1000000)]
  match Read st.1 with
  | ((hits, err), pad) =>
    let trace := trace ++ [Action.ReadCall]
    match err with
    | some _ => (pad, trace)
    | none => (pad, hits.foldl (fun tr hit => tr ++ [Action.Send hit]) trace)

/-- The first `n` iterations of the loop of the goroutine. -/
def listenLoop : Nat → Launchpad × List Action → Launchpad × List Action
  | 0, st => st
  | n + 1, st => listenLoop n (listenIter st)

/-- The first `n` ticks of `Listen()` on `l`: the goroutine starts with
nothing done yet. -/
def Listen (l : Launchpad) (n : Nat) : Launchpad × List Action :=
  listenLoop n (l, [])

/-- The hits received by the consumer of the channel: the sends, in order. -/
def sentHits : List Action → List Hit
  | [] => []
  | Action.Send hit :: rest => hit :: sentHits rest
  | _ :: rest => sentHits rest

/-! ## Scripted streams used to run the code on concrete inputs -/

/-- A stream whose successive `Read` calls answer with `reads` (then fail),
whose writes answer `writeErr` and whose closes answer `closeErr`. -/
def scripted (reads : List (Except Error (List Event)))
    (writeErr closeErr : Option Error) : Stream where
  onRead := fun calls _ => (reads.get? calls.length).getD (Except.error "stream closed")
  onWriteShort := fun _ _ _ _ => writeErr
  onClose := fun _ => closeErr
  calls := []

/-- A driver whose input stream replays `reads` and whose other calls succeed. -/
def padReading (reads : List (Except Error (List Event))) : Launchpad where
  inputStream := scripted reads none none
  outputStream := scripted [] none none

/-! ## Notions used to state the properties -/

/-- The name of the device contains "Launchpad" and it can be opened for input. -/
def InputCandidate (info : DeviceInfo) : Prop :=
  "Launchpad".toList <:+: info.Name.toList ∧ info.IsInputAvailable = true

/-- The name of the device contains "Launchpad" and it can be opened for output. -/
def OutputCandidate (info : DeviceInfo) : Prop :=
  "Launchpad".toList <:+: info.Name.toList ∧ info.IsOutputAvailable = true

/-- Index `i` is the last position of `devices` holding a device with `p`. -/
def IsLastIndexOf (p : DeviceInfo → Prop) (devices : List DeviceInfo) (i : Int) : Prop :=
  ∃ k : Nat, i = (k : Int) ∧ (∃ d, devices.get? k = some d ∧ p d) ∧
    ∀ (j : Nat) (d : DeviceInfo), k < j → devices.get? j = some d → ¬ p d

/-- What `Read` returns when its `inputStream.Read(64)` call answers `o`. -/
def readOutcomeOf (o : Except Error (List Event)) : List Hit × Option Error :=
  match o with
  | Except.ok evts => (evts.foldl readStep [], none)
  | Except.error err => ([], some err)

/-- The outcomes `(hits, err)` of `n` successive `Read` calls on `l`. -/
def readOutcomes : Nat → Launchpad → List (List Hit × Option Error)
  | 0, _ => []
  | n + 1, l => (Read l).1 :: readOutcomes n (Read l).2

/-- What one tick of the loop does for the outcome `o` of its `Read`. -/
def tickActions (o : List Hit × Option Error) : List Action :=
  [Action.Sleep 10000000, Action.ReadCall] ++
    (if o.2 = none then o.1.map Action.Send else [])

/-! ## Arithmetic of the machine integers -/

theorem wrap64_eq_self {z : Int} (h : inInt64 z) : wrap64 z = z := by
  unfold inInt64 at h
  unfold wrap64
  omega

theorem tdiv_of_pos (a : Int) {b : Int} (hb : 0 < b) :
    a.tdiv b = if 0 ≤ a then a / b else -((-a) / b) := by
  split
  · exact Int.tdiv_eq_ediv ‹_› (by omega)
  · have h : a = -(-a) := by omega
    rw [h, Int.neg_tdiv, Int.tdiv_eq_ediv (by omega) (by omega)]
    simp

theorem tmod_eight (a : Int) :
    a.tmod 8 = if 0 ≤ a then a % 8 else -((-a) % 8) := by
  rw [Int.tmod_def, tdiv_of_pos a (by decide : (0 : Int) < 8)]
  split <;> omega

/-- The hit that `readStep` appends for an event of status `s`. -/
theorem readStep_pos (hits : List Hit) (evt : Event) (h : 0 < evt.Data1) :
    readStep hits evt = hits ++
      [{ X := wrap64 (rem64 evt.Status 8),
         Y := wrap64 (sub64 7 (div64 (sub64 evt.Status (rem64 evt.Status 8)) 16)) }] := by
  simp [readStep, h]

theorem readStep_nonpos (hits : List Hit) (evt : Event) (h : ¬ 0 < evt.Data1) :
    readStep hits evt = hits := by
  simp [readStep, h]

/-- On an `int64` status no operation of the decoding overflows. -/
theorem decode_exact {s : Int} (hs : inInt64 s) :
    wrap64 (rem64 s 8) = s.tmod 8 ∧
    wrap64 (sub64 7 (div64 (sub64 s (rem64 s 8)) 16)) = 7 - (s - s.tmod 8).tdiv 16 := by
  unfold inInt64 at hs
  have hm := tmod_eight s
  have hd := tdiv_of_pos (s - s.tmod 8) (by decide : (0 : Int) < 16)
  have hx : rem64 s 8 = s.tmod 8 := by
    unfold rem64 wrap64
    split at hm <;> omega
  have hsub : sub64 s (s.tmod 8) = s - s.tmod 8 := by
    unfold sub64 wrap64
    split at hm <;> omega
  have hdiv : div64 (s - s.tmod 8) 16 = (s - s.tmod 8).tdiv 16 := by
    unfold div64 wrap64
    split at hm <;> split at hd <;> omega
  have hy : sub64 7 ((s - s.tmod 8).tdiv 16) = 7 - (s - s.tmod 8).tdiv 16 := by
    unfold sub64 wrap64
    split at hm <;> split at hd <;> omega
  rw [hx, hsub, hdiv, hy]
  constructor
  · unfold wrap64
    split at hm <;> omega
  · unfold wrap64
    split at hm <;> split at hd <;> omega

theorem foldl_readStep (evts : List Event) (acc : List Hit) :
    evts.foldl readStep acc = acc ++
      (evts.filter (fun e => decide (0 < e.Data1))).map (fun e =>
        ({ X := wrap64 (rem64 e.Status 8),
           Y := wrap64 (sub64 7 (div64 (sub64 e.Status (rem64 e.Status 8)) 16)) } : Hit)) := by
  induction evts generalizing acc with
  | nil => simp
  | cons e rest ih =>
    rw [List.foldl_cons, ih]
    by_cases h : 0 < e.Data1
    · rw [readStep_pos _ _ h]
      simp [List.filter_cons, h]
    · rw [readStep_nonpos _ _ h]
      simp [List.filter_cons, h]

theorem Read_ok (l : Launchpad) (evts : List Event)
    (hread : l.inputStream.onRead l.inputStream.calls 64 = Except.ok evts) :
    Read l = ((evts.foldl readStep [], none),
      { l with inputStream :=
          { l.inputStream with calls := l.inputStream.calls ++ [StreamCall.Read 64] } }) := by
  simp [Read, Stream.Read, hread]

theorem Read_error (l : Launchpad) (err : Error)
    (hread : l.inputStream.onRead l.inputStream.calls 64 = Except.error err) :
    Read l = (([], some err),
      { l with inputStream :=
          { l.inputStream with calls := l.inputStream.calls ++ [StreamCall.Read 64] } }) := by
  simp [Read, Stream.Read, hread]

/-- The hits of a successful read, with the decoding in exact arithmetic. -/
theorem Read_hits_exact (l : Launchpad) (evts : List Event)
    (hread : l.inputStream.onRead l.inputStream.calls 64 = Except.ok evts)
    (hrange : ∀ e ∈ evts, inInt64 e.Status) :
    (Read l).1 =
      ((evts.filter (fun e => decide (0 < e.Data1))).map (fun e =>
          ({ X := e.Status.tmod 8, Y := 7 - (e.Status - e.Status.tmod 8).tdiv 16 } : Hit)),
       none) := by
  rw [Read_ok l evts hread, foldl_readStep]
  simp only [List.nil_append, Prod.mk.injEq, and_true]
  apply List.map_congr_left
  intro e he
  have hmem : e ∈ evts := (List.mem_filter.mp he).1
  obtain ⟨h1, h2⟩ := decode_exact (hrange e hmem)
  rw [h1, h2]

/-- C1: for every batch of events that the input stream returns successfully
(statuses being `int64` values), `Read` makes exactly one `Read(64)` call on
the input stream and returns, in the order of the events and with a `nil`
error, one hit per event with `Data1 > 0`, where `X = Status % 8` and
`Y = 7 - (Status - X) / 16` in Go's integer arithmetic (for a status that is
not negative these are the usual remainder and quotient), and no hit for any
other event; a batch whose velocities are all `0` gives no hit whatever the
statuses, and the batch made of the event (status 5, velocity 10) gives
exactly `Hit{X: 5, Y: 7}`. -/
theorem Read_returns_hits_of_pressed_events (l : Launchpad) (evts : List Event)
    (hread : l.inputStream.onRead l.inputStream.calls 64 = Except.ok evts)
    (hrange : ∀ e ∈ evts, inInt64 e.Status) :
    (Read l).1 =
      ((evts.filter (fun e => decide (0 < e.Data1))).map (fun e =>
          ({ X := e.Status.tmod 8, Y := 7 - (e.Status - e.Status.tmod 8).tdiv 16 } : Hit)),
       none)
    ∧ (Read l).2.inputStream.calls = l.inputStream.calls ++ [StreamCall.Read 64]
    ∧ (Read l).2.outputStream.calls = l.outputStream.calls
    ∧ (∀ e ∈ evts, 0 ≤ e.Status →
        e.Status.tmod 8 = e.Status % 8 ∧
        (e.Status - e.Status.tmod 8).tdiv 16 = (e.Status - e.Status % 8) / 16)
    ∧ ((∀ e ∈ evts, e.Data1 = 0) → (Read l).1 = ([], none))
    ∧ (∀ ts : Int, evts = [{ Timestamp := ts, Status := 5, Data1 := 10 }] →
        (Read l).1 = ([{ X := 5, Y := 7 }], none)) := by
  have hexact := Read_hits_exact l evts hread hrange
  refine ⟨hexact, ?_, ?_, ?_, ?_, ?_⟩
  · rw [Read_ok l evts hread]
  · rw [Read_ok l evts hread]
  · intro e _ h0
    have hm := tmod_eight e.Status
    have hd := tdiv_of_pos (e.Status - e.Status.tmod 8) (by decide : (0 : Int) < 16)
    rw [if_pos h0] at hm
    rw [if_pos (by omega)] at hd
    exact ⟨hm, by rw [hd, hm]⟩
  · intro hzero
    rw [hexact]
    have hnil : evts.filter (fun e => decide (0 < e.Data1)) = [] := by
      rw [List.filter_eq_nil_iff]
      intro e he
      simp [hzero e he]
    rw [hnil]
    rfl
  · intro ts hevts
    rw [hexact, hevts]
    have hx : (5 : Int).tmod 8 = 5 := by decide
    have hy : (7 : Int) - ((5 : Int) - 5).tdiv 16 = 7 := by decide
    simp [hx, hy]

/-- C1 witness: a batch of four events, two of them with velocity `0`. -/
theorem Read_returns_hits_of_pressed_events_witness :
    (padReading [Except.ok
        [⟨0, 5, 10⟩, ⟨1, 5, 0⟩, ⟨2, 112, 127⟩, ⟨3, 7, 0⟩]]).inputStream.onRead
      (padReading [Except.ok
        [⟨0, 5, 10⟩, ⟨1, 5, 0⟩, ⟨2, 112, 127⟩, ⟨3, 7, 0⟩]]).inputStream.calls 64
      = Except.ok [⟨0, 5, 10⟩, ⟨1, 5, 0⟩, ⟨2, 112, 127⟩, ⟨3, 7, 0⟩]
    ∧ (Read (padReading [Except.ok
        [⟨0, 5, 10⟩, ⟨1, 5, 0⟩, ⟨2, 112, 127⟩, ⟨3, 7, 0⟩]])).1
      = ([{ X := 5, Y := 7 }, { X := 0, Y := 0 }], none) :=
  ⟨rfl,
   (Read_returns_hits_of_pressed_events
      (padReading [Except.ok [⟨0, 5, 10⟩, ⟨1, 5, 0⟩, ⟨2, 112, 127⟩, ⟨3, 7, 0⟩]])
      [⟨0, 5, 10⟩, ⟨1, 5, 0⟩, ⟨2, 112, 127⟩, ⟨3, 7, 0⟩] rfl (by decide)).1.trans
     (by decide)⟩

/-! ## `Light` -/

theorem lightNote_eq (x y : Int) : lightNote x y = wrap64 (x + 16 * (7 - y)) := by
  unfold lightNote add64 mul64 sub64 wrap64
  omega

theorem lightVelocity_eq (g r : Int) : lightVelocity g r = wrap64 (16 * g + r + 12) := by
  unfold lightVelocity add64 mul64 wrap64
  omega

theorem Light_eq (l : Launchpad) (x y g r : Int) :
    Light l x y g r =
      (l.outputStream.onWriteShort l.outputStream.calls 0x90 (lightNote x y) (lightVelocity g r),
       { l with outputStream :=
          { l.outputStream with calls := l.outputStream.calls ++
              [StreamCall.WriteShort 0x90 (lightNote x y) (lightVelocity g r)] } }) := by
  simp [Light, Stream.WriteShort]

/-- C2 counterexample: `Light(0, -2^62, 2^59, 0)`, all four arguments valid
`int` values.  Both sums overflow: the note written is 112, not
`0 + 16*(7 + 2^62)`, and the velocity written is `-2^63 + 12`, not
`16*2^59 + 0 + 12`. -/
theorem Light_note_and_velocity_wrap_counterexample :
    inInt64 (-4611686018427387904) ∧ inInt64 576460752303423488
    ∧ (Light (padReading []) 0 (-4611686018427387904) 576460752303423488 0).2.outputStream.calls
        = [StreamCall.WriteShort 0x90 112 (-9223372036854775796)]
    ∧ (112 : Int) ≠ 0 + 16 * (7 - (-4611686018427387904))
    ∧ (-9223372036854775796 : Int) ≠ 16 * 576460752303423488 + 0 + 12
    ∧ (Light (padReading []) 0 (-4611686018427387904) 576460752303423488 0).2.outputStream.calls
        ≠ [StreamCall.WriteShort 0x90 (0 + 16 * (7 - (-4611686018427387904)))
            (16 * 576460752303423488 + 0 + 12)] := by
  decide

/-- C2 as amended: for all integers `x`, `y`, `g`, `r`, with no bounds check
and no clamping, `Light` makes exactly one call on the output stream (and none
on the input stream), `WriteShort(0x90, note, velocity)`, where `note` is
`x + 16*(7-y)` reduced to `int64` by two's complement wrap-around and
`velocity` is `16*g + r + 12` reduced the same way, so that each is the exact
number whenever that number fits in 64 bits, and returns what that write
returns; `Light(0,0,0,0)` writes note 112 with velocity 12 and
`Light(7,7,3,3)` writes note 7 with velocity 63. -/
theorem Light_writes_one_short_message (l : Launchpad) (x y g r : Int) :
    (Light l x y g r).2.outputStream.calls = l.outputStream.calls ++
        [StreamCall.WriteShort 0x90 (wrap64 (x + 16 * (7 - y))) (wrap64 (16 * g + r + 12))]
    ∧ (Light l x y g r).2.inputStream.calls = l.inputStream.calls
    ∧ (Light l x y g r).1 =
        l.outputStream.onWriteShort l.outputStream.calls 0x90
          (wrap64 (x + 16 * (7 - y))) (wrap64 (16 * g + r + 12))
    ∧ (inInt64 (x + 16 * (7 - y)) → wrap64 (x + 16 * (7 - y)) = x + 16 * (7 - y))
    ∧ (inInt64 (16 * g + r + 12) → wrap64 (16 * g + r + 12) = 16 * g + r + 12)
    ∧ (Light l 0 0 0 0).2.outputStream.calls =
        l.outputStream.calls ++ [StreamCall.WriteShort 0x90 112 12]
    ∧ (Light l 7 7 3 3).2.outputStream.calls =
        l.outputStream.calls ++ [StreamCall.WriteShort 0x90 7 63] := by
  refine ⟨?_, ?_, ?_, wrap64_eq_self, wrap64_eq_self, ?_, ?_⟩
  · rw [Light_eq, lightNote_eq, lightVelocity_eq]
  · rw [Light_eq]
  · rw [Light_eq, lightNote_eq, lightVelocity_eq]
  · rw [Light_eq]
    have h1 : lightNote 0 0 = 112 := by decide
    have h2 : lightVelocity 0 0 = 12 := by decide
    rw [h1, h2]
  · rw [Light_eq]
    have h1 : lightNote 7 7 = 7 := by decide
    have h2 : lightVelocity 3 3 = 63 := by decide
    rw [h1, h2]

/-! ## Grid cells -/

theorem decode_cell {s x0 y0 : Int} (hx0 : 0 ≤ x0) (hx1 : x0 ≤ 7) (hy0 : 0 ≤ y0)
    (hy1 : y0 ≤ 7) (hs : s = x0 + 16 * (7 - y0)) :
    s.tmod 8 = x0 ∧ 7 - (s - s.tmod 8).tdiv 16 = y0 := by
  have hm := tmod_eight s
  have hd := tdiv_of_pos (s - s.tmod 8) (by decide : (0 : Int) < 16)
  rw [if_pos (by omega)] at hm
  rw [if_pos (by omega)] at hd
  constructor <;> omega

theorem lightNote_cell {x y : Int} (hx0 : 0 ≤ x) (hx1 : x ≤ 7) (hy0 : 0 ≤ y)
    (hy1 : y ≤ 7) : lightNote x y = x + 16 * (7 - y) := by
  rw [lightNote_eq]
  apply wrap64_eq_self
  unfold inInt64
  omega

/-- C3: round trip on coordinates.  For every status byte `s` in `[0,127]`
with `s mod 16 < 8` (these are exactly the `x0 + 16*(7-y0)` with `x0`, `y0` in
`[0,7]`), every velocity `v > 0` and every `g`, `r`: `Read` decodes the event
to the single hit `Hit{X: x0, Y: y0}`, and the note that `Light` writes for
that hit (with `g`, `r`) is `s` again. -/
theorem Read_then_Light_recovers_status (l : Launchpad) (ts s v g r : Int)
    (hs0 : 0 ≤ s) (hs1 : s ≤ 127) (hcell : s % 16 < 8) (hv : 0 < v)
    (hread : l.inputStream.onRead l.inputStream.calls 64
      = Except.ok [{ Timestamp := ts, Status := s, Data1 := v }]) :
    ∃ hit : Hit,
      (Read l).1 = ([hit], none)
      ∧ (0 ≤ hit.X ∧ hit.X ≤ 7 ∧ 0 ≤ hit.Y ∧ hit.Y ≤ 7 ∧ s = hit.X + 16 * (7 - hit.Y))
      ∧ (∀ x0 y0 : Int, 0 ≤ x0 → x0 ≤ 7 → 0 ≤ y0 → y0 ≤ 7 → s = x0 + 16 * (7 - y0) →
          hit = { X := x0, Y := y0 })
      ∧ lightNote hit.X hit.Y = s
      ∧ (∀ l' : Launchpad, (Light l' hit.X hit.Y g r).2.outputStream.calls =
          l'.outputStream.calls ++ [StreamCall.WriteShort 0x90 s (lightVelocity g r)]) := by
  have hcoord : s = s % 8 + 16 * (7 - (7 - s / 16)) := by omega
  have hx0 : 0 ≤ s % 8 := by omega
  have hx1 : s % 8 ≤ 7 := by omega
  have hy0 : 0 ≤ 7 - s / 16 := by omega
  have hy1 : 7 - s / 16 ≤ 7 := by omega
  have hnote : lightNote (s % 8) (7 - s / 16) = s := by
    rw [lightNote_cell hx0 hx1 hy0 hy1]
    omega
  refine ⟨{ X := s % 8, Y := 7 - s / 16 }, ?_, ⟨hx0, hx1, hy0, hy1, hcoord⟩, ?_, hnote, ?_⟩
  · have hrange : ∀ e ∈ [({ Timestamp := ts, Status := s, Data1 := v } : Event)],
        inInt64 e.Status := by
      intro e he
      rw [List.mem_singleton] at he
      subst he
      unfold inInt64
      constructor <;> (show _ ; simp only ; omega)
    rw [Read_hits_exact l _ hread hrange]
    obtain ⟨h1, h2⟩ := decode_cell hx0 hx1 hy0 hy1 hcoord
    have hf : List.filter (fun e => decide (0 < e.Data1))
        [({ Timestamp := ts, Status := s, Data1 := v } : Event)]
        = [{ Timestamp := ts, Status := s, Data1 := v }] := by
      simp [hv]
    rw [hf]
    simp only [List.map_cons, List.map_nil]
    rw [h2, h1]
  · intro x0 y0 a1 a2 a3 a4 a5
    have e1 : s % 8 = x0 := by omega
    have e2 : 7 - s / 16 = y0 := by omega
    rw [e1, e2]
  · intro l'
    rw [Light_eq]
    simp only
    rw [hnote]

/-- C3 witness: the status byte 35 is the cell `x0 = 3`, `y0 = 5`. -/
theorem Read_then_Light_recovers_status_witness :
    ∃ hit : Hit,
      (Read (padReading [Except.ok [⟨0, 35, 100⟩]])).1 = ([hit], none)
      ∧ (0 ≤ hit.X ∧ hit.X ≤ 7 ∧ 0 ≤ hit.Y ∧ hit.Y ≤ 7 ∧ (35 : Int) = hit.X + 16 * (7 - hit.Y))
      ∧ (∀ x0 y0 : Int, 0 ≤ x0 → x0 ≤ 7 → 0 ≤ y0 → y0 ≤ 7 → (35 : Int) = x0 + 16 * (7 - y0) →
          hit = { X := x0, Y := y0 })
      ∧ lightNote hit.X hit.Y = 35
      ∧ (∀ l' : Launchpad, (Light l' hit.X hit.Y 3 1).2.outputStream.calls =
          l'.outputStream.calls ++ [StreamCall.WriteShort 0x90 35 (lightVelocity 3 1)]) :=
  Read_then_Light_recovers_status (padReading [Except.ok [⟨0, 35, 100⟩]]) 0 35 100 3 1
    (by decide) (by decide) (by decide) (by decide) rfl

theorem decode_on_grid {s : Int} (hs0 : 0 ≤ s) (hs1 : s ≤ 127) :
    0 ≤ wrap64 (rem64 s 8) ∧ wrap64 (rem64 s 8) ≤ 7 ∧
    0 ≤ wrap64 (sub64 7 (div64 (sub64 s (rem64 s 8)) 16)) ∧
    wrap64 (sub64 7 (div64 (sub64 s (rem64 s 8)) 16)) ≤ 7 := by
  have hin : inInt64 s := by
    unfold inInt64
    omega
  obtain ⟨h1, h2⟩ := decode_exact hin
  have hm := tmod_eight s
  have hd := tdiv_of_pos (s - s.tmod 8) (by decide : (0 : Int) < 16)
  rw [if_pos hs0] at hm
  rw [if_pos (by omega)] at hd
  rw [h1, h2]
  omega

/-- C9: the hits of a successful `Read` correspond one to one, in order, to
the events of the batch with `Data1 > 0`, and every hit that comes from an
event whose status byte is in `[0,127]` lies on the 8x8 grid:
`0 <= X <= 7` and `0 <= Y <= 7`. -/
theorem Read_hits_lie_on_grid (l : Launchpad) (evts : List Event)
    (hread : l.inputStream.onRead l.inputStream.calls 64 = Except.ok evts) :
    List.Forall₂
      (fun (e : Event) (hit : Hit) => 0 ≤ e.Status → e.Status ≤ 127 →
        0 ≤ hit.X ∧ hit.X ≤ 7 ∧ 0 ≤ hit.Y ∧ hit.Y ≤ 7)
      (evts.filter (fun e => decide (0 < e.Data1))) (Read l).1.1
    ∧ ((∀ e ∈ evts, 0 ≤ e.Status ∧ e.Status ≤ 127) →
        ∀ hit ∈ (Read l).1.1, 0 ≤ hit.X ∧ hit.X ≤ 7 ∧ 0 ≤ hit.Y ∧ hit.Y ≤ 7) := by
  rw [Read_ok l evts hread, foldl_readStep]
  simp only [List.nil_append]
  constructor
  · rw [List.forall₂_map_right_iff, List.forall₂_same]
    intro e _ h0 h1
    exact decode_on_grid h0 h1
  · intro hall hit hmem
    rw [List.mem_map] at hmem
    obtain ⟨e, he, rfl⟩ := hmem
    have hr := hall e (List.mem_filter.mp he).1
    exact decode_on_grid hr.1 hr.2

/-- C9 witness: the four corners of the status range, and a release. -/
theorem Read_hits_lie_on_grid_witness :
    (padReading [Except.ok
        [⟨0, 0, 1⟩, ⟨1, 127, 1⟩, ⟨2, 64, 0⟩, ⟨3, 120, 9⟩]]).inputStream.onRead
      (padReading [Except.ok
        [⟨0, 0, 1⟩, ⟨1, 127, 1⟩, ⟨2, 64, 0⟩, ⟨3, 120, 9⟩]]).inputStream.calls 64
      = Except.ok [⟨0, 0, 1⟩, ⟨1, 127, 1⟩, ⟨2, 64, 0⟩, ⟨3, 120, 9⟩]
    ∧ ∀ hit ∈ (Read (padReading [Except.ok
        [⟨0, 0, 1⟩, ⟨1, 127, 1⟩, ⟨2, 64, 0⟩, ⟨3, 120, 9⟩]])).1.1,
        0 ≤ hit.X ∧ hit.X ≤ 7 ∧ 0 ≤ hit.Y ∧ hit.Y ≤ 7 :=
  ⟨rfl,
   (Read_hits_lie_on_grid
      (padReading [Except.ok [⟨0, 0, 1⟩, ⟨1, 127, 1⟩, ⟨2, 64, 0⟩, ⟨3, 120, 9⟩]])
      [⟨0, 0, 1⟩, ⟨1, 127, 1⟩, ⟨2, 64, 0⟩, ⟨3, 120, 9⟩] rfl).2 (by decide)⟩

/-! ## Encoding then decoding -/

/-- C10 counterexample: with `g = 2^59` (a valid `int`) and `r = 0` the sum
`16*g + r + 12` overflows: `Light(0, 0, 2^59, 0)` writes note 112 with the
velocity `-2^63 + 12`, which is not strictly positive, and `Read` decodes an
event carrying that note and that velocity to no hit at all. -/
theorem Light_velocity_overflow_counterexample :
    inInt64 576460752303423488 ∧ (0 : Int) ≤ 576460752303423488
    ∧ (Light (padReading []) 0 0 576460752303423488 0).2.outputStream.calls
        = [StreamCall.WriteShort 0x90 112 (-9223372036854775796)]
    ∧ ¬ ((0 : Int) < -9223372036854775796)
    ∧ (Read (padReading [Except.ok [⟨0, 112, -9223372036854775796⟩]])).1 = ([], none) := by
  decide

/-- C10 as amended: for every `x`, `y` in `[0,7]` and every `g`, `r >= 0`
with `16*g + r + 12 <= 2^63 - 1` (the velocity does not overflow), `Light`
writes the note `x + 16*(7-y)`, which is in `[0,127]`, with the velocity
`16*g + r + 12`, which is strictly positive, and `Read` decodes an event
carrying that note and that velocity to exactly `Hit{X: x, Y: y}`; two grid
cells lit through the same note are the same cell. -/
theorem Light_then_Read_recovers_cell (l l' : Launchpad) (ts x y g r : Int)
    (hx0 : 0 ≤ x) (hx1 : x ≤ 7) (hy0 : 0 ≤ y) (hy1 : y ≤ 7) (hg : 0 ≤ g) (hr : 0 ≤ r)
    (hfit : 16 * g + r + 12 ≤ 9223372036854775807)
    (hread : l'.inputStream.onRead l'.inputStream.calls 64
      = Except.ok [{ Timestamp := ts, Status := lightNote x y, Data1 := lightVelocity g r }]) :
    (Light l x y g r).2.outputStream.calls = l.outputStream.calls ++
        [StreamCall.WriteShort 0x90 (lightNote x y) (lightVelocity g r)]
    ∧ lightNote x y = x + 16 * (7 - y)
    ∧ lightVelocity g r = 16 * g + r + 12
    ∧ (0 ≤ lightNote x y ∧ lightNote x y ≤ 127)
    ∧ 0 < lightVelocity g r
    ∧ (Read l').1 = ([{ X := x, Y := y }], none)
    ∧ (∀ x' y' : Int, 0 ≤ x' → x' ≤ 7 → 0 ≤ y' → y' ≤ 7 →
        lightNote x' y' = lightNote x y → x' = x ∧ y' = y) := by
  have hnote := lightNote_cell hx0 hx1 hy0 hy1
  have hvel : lightVelocity g r = 16 * g + r + 12 := by
    rw [lightVelocity_eq]
    apply wrap64_eq_self
    unfold inInt64
    omega
  refine ⟨by rw [Light_eq], hnote, hvel, by omega, by omega, ?_, ?_⟩
  · have hrange : ∀ e ∈ [Event.mk ts (lightNote x y) (lightVelocity g r)],
        inInt64 e.Status := by
      intro e he
      rw [List.mem_singleton] at he
      subst he
      unfold inInt64
      constructor <;> (show _ ; simp only ; omega)
    rw [Read_hits_exact l' _ hread hrange]
    obtain ⟨h1, h2⟩ := decode_cell hx0 hx1 hy0 hy1 hnote
    have hpos : 0 < lightVelocity g r := by omega
    have hf : List.filter (fun e => decide (0 < e.Data1))
        [Event.mk ts (lightNote x y) (lightVelocity g r)]
        = [Event.mk ts (lightNote x y) (lightVelocity g r)] := by
      simp [hpos]
    rw [hf]
    simp only [List.map_cons, List.map_nil]
    rw [h2, h1]
  · intro x' y' a1 a2 a3 a4 heq
    rw [lightNote_cell a1 a2 a3 a4, hnote] at heq
    constructor <;> omega

/-- C10 (amended) witness: the cell `(3, 5)` lit with `g = 3`, `r = 1`. -/
theorem Light_then_Read_recovers_cell_witness :
    (Light (padReading []) 3 5 3 1).2.outputStream.calls
        = [StreamCall.WriteShort 0x90 35 61]
    ∧ (Read (padReading [Except.ok [⟨0, lightNote 3 5, lightVelocity 3 1⟩]])).1
        = ([{ X := 3, Y := 5 }], none) :=
  ⟨(Light_then_Read_recovers_cell (padReading [])
      (padReading [Except.ok [⟨0, lightNote 3 5, lightVelocity 3 1⟩]]) 0 3 5 3 1
      (by decide) (by decide) (by decide) (by decide) (by decide) (by decide) (by decide)
      rfl).1.trans (by decide),
   (Light_then_Read_recovers_cell (padReading [])
      (padReading [Except.ok [⟨0, lightNote 3 5, lightVelocity 3 1⟩]]) 0 3 5 3 1
      (by decide) (by decide) (by decide) (by decide) (by decide) (by decide) (by decide)
      rfl).2.2.2.2.2.1⟩

/-! ## `discover` -/

theorem containsChars_iff (sub s : List Char) :
    containsChars sub s = true ↔ sub <:+: s := by
  induction s with
  | nil => simp [containsChars]
  | cons c cs ih =>
    rw [containsChars, Bool.or_eq_true, ih, List.isPrefixOf_iff_prefix, List.infix_cons_iff]

theorem strings_Contains_iff (s substr : String) :
    strings.Contains s substr = true ↔ substr.toList <:+: s.toList :=
  containsChars_iff _ _

theorem discoverStep_fst (i : Int) (info : DeviceInfo) (st : Int × Int) :
    (InputCandidate info ∧ (discoverStep i info st).1 = i) ∨
    (¬ InputCandidate info ∧ (discoverStep i info st).1 = st.1) := by
  unfold InputCandidate discoverStep
  rw [← strings_Contains_iff]
  cases hc : strings.Contains info.Name "Launchpad" <;>
    cases hi : info.IsInputAvailable <;> simp

theorem discoverStep_snd (i : Int) (info : DeviceInfo) (st : Int × Int) :
    (OutputCandidate info ∧ (discoverStep i info st).2 = i) ∨
    (¬ OutputCandidate info ∧ (discoverStep i info st).2 = st.2) := by
  unfold OutputCandidate discoverStep
  rw [← strings_Contains_iff]
  cases hc : strings.Contains info.Name "Launchpad" <;>
    cases ho : info.IsOutputAvailable <;> simp

/-- The loop keeps, in a variable that each step sets to the index of a
device with `p` and leaves alone otherwise, the index of the last such device
(and the initial value when there is none). -/
theorem discoverLoop_last (p : DeviceInfo → Prop) (proj : Int × Int → Int)
    (hstep : ∀ (i : Int) (info : DeviceInfo) (st : Int × Int),
      (p info ∧ proj (discoverStep i info st) = i) ∨
      (¬ p info ∧ proj (discoverStep i info st) = proj st))
    (devices : List DeviceInfo) (i : Int) (st : Int × Int) :
    ((∀ d ∈ devices, ¬ p d) ∧ proj (discoverLoop devices i st) = proj st) ∨
    (∃ k : Nat, proj (discoverLoop devices i st) = i + (k : Int) ∧
      (∃ d, devices.get? k = some d ∧ p d) ∧
      ∀ (j : Nat) (d : DeviceInfo), k < j → devices.get? j = some d → ¬ p d) := by
  induction devices generalizing i st with
  | nil =>
    left
    simp [discoverLoop]
  | cons info rest ih =>
    rw [discoverLoop]
    rcases ih (i + 1) (discoverStep i info st) with ⟨hnone, heq⟩ | ⟨k, heq, ⟨d, hd, hp⟩, hlast⟩
    · rcases hstep i info st with ⟨hp, hv⟩ | ⟨hnp, hv⟩
      · right
        refine ⟨0, ?_, ⟨info, rfl, hp⟩, ?_⟩
        · rw [heq, hv]
          simp
        · intro j d hj hget
          cases j with
          | zero => omega
          | succ j' =>
            rw [List.get?_cons_succ] at hget
            exact hnone d (List.get?_mem hget)
      · left
        refine ⟨?_, by rw [heq, hv]⟩
        intro d hmem
        rcases List.mem_cons.mp hmem with rfl | hrest
        · exact hnp
        · exact hnone d hrest
    · right
      refine ⟨k + 1, ?_, ⟨d, by rw [List.get?_cons_succ]; exact hd, hp⟩, ?_⟩
      · rw [heq]
        push_cast
        omega
      · intro j d' hj hget
        cases j with
        | zero => omega
        | succ j' =>
          rw [List.get?_cons_succ] at hget
          exact hlast j' d' (by omega) hget

theorem discoverLoop_in (devices : List DeviceInfo) :
    ((∀ d ∈ devices, ¬ InputCandidate d) ∧ (discoverLoop devices 0 (-1, -1)).1 = -1) ∨
    IsLastIndexOf InputCandidate devices (discoverLoop devices 0 (-1, -1)).1 := by
  rcases discoverLoop_last InputCandidate Prod.fst discoverStep_fst devices 0 (-1, -1)
    with h | ⟨k, hk, hrest⟩
  · exact Or.inl h
  · exact Or.inr ⟨k, by rw [hk]; omega, hrest⟩

theorem discoverLoop_out (devices : List DeviceInfo) :
    ((∀ d ∈ devices, ¬ OutputCandidate d) ∧ (discoverLoop devices 0 (-1, -1)).2 = -1) ∨
    IsLastIndexOf OutputCandidate devices (discoverLoop devices 0 (-1, -1)).2 := by
  rcases discoverLoop_last OutputCandidate Prod.snd discoverStep_snd devices 0 (-1, -1)
    with h | ⟨k, hk, hrest⟩
  · exact Or.inl h
  · exact Or.inr ⟨k, by rw [hk]; omega, hrest⟩

theorem IsLastIndexOf.nonneg {p : DeviceInfo → Prop} {devices : List DeviceInfo} {i : Int}
    (h : IsLastIndexOf p devices i) : 0 ≤ i := by
  obtain ⟨k, hk, _⟩ := h
  omega

theorem IsLastIndexOf.exists_mem {p : DeviceInfo → Prop} {devices : List DeviceInfo} {i : Int}
    (h : IsLastIndexOf p devices i) : ∃ d ∈ devices, p d := by
  obtain ⟨k, _, ⟨d, hd, hp⟩, _⟩ := h
  exact ⟨d, List.get?_mem hd, hp⟩

theorem discover_err_eq (devices : List DeviceInfo) :
    (discover devices).2.2 =
      if (discoverLoop devices 0 (-1, -1)).1 = -1 ∨ (discoverLoop devices 0 (-1, -1)).2 = -1
      then some errNoLaunchpad else none := by
  unfold discover
  by_cases h1 : (discoverLoop devices 0 (-1, -1)).1 = -1 <;>
    by_cases h2 : (discoverLoop devices 0 (-1, -1)).2 = -1 <;> simp [h1, h2]

theorem discover_ok_eq (devices : List DeviceInfo) (h : (discover devices).2.2 = none) :
    (discover devices).1 = (discoverLoop devices 0 (-1, -1)).1 ∧
    (discover devices).2.1 = (discoverLoop devices 0 (-1, -1)).2 ∧
    (discoverLoop devices 0 (-1, -1)).1 ≠ -1 ∧ (discoverLoop devices 0 (-1, -1)).2 ≠ -1 := by
  unfold discover at h ⊢
  by_cases h1 : (discoverLoop devices 0 (-1, -1)).1 = -1 <;>
    by_cases h2 : (discoverLoop devices 0 (-1, -1)).2 = -1 <;> simp_all

/-- C4: for every enumerated device list, `discover` fails if and only if the
list has no input-capable device whose name contains "Launchpad" or has no
output-capable device whose name contains "Launchpad"; when it fails it
returns the error "portmidi: No Launchpad is connected." (with zero ids).  A
list where only one direction is found fails, and a list with no matching
name fails. -/
theorem discover_fails_iff_a_direction_is_missing (devices : List DeviceInfo) :
    ((discover devices).2.2 ≠ none ↔
      (¬ ∃ d ∈ devices, InputCandidate d) ∨ (¬ ∃ d ∈ devices, OutputCandidate d))
    ∧ ((discover devices).2.2 ≠ none → discover devices = (0, 0, some errNoLaunchpad))
    ∧ ((∀ d ∈ devices, ¬ "Launchpad".toList <:+: d.Name.toList) →
        discover devices = (0, 0, some errNoLaunchpad))
    ∧ discover [⟨"Launchpad", true, false⟩] = (0, 0, some errNoLaunchpad)
    ∧ discover [⟨"Launchpad", false, true⟩] = (0, 0, some errNoLaunchpad)
    ∧ discover [⟨"Keyboard", true, true⟩, ⟨"USB MIDI", true, true⟩]
        = (0, 0, some errNoLaunchpad) := by
  have hiff : (discover devices).2.2 ≠ none ↔
      (¬ ∃ d ∈ devices, InputCandidate d) ∨ (¬ ∃ d ∈ devices, OutputCandidate d) := by
    rw [discover_err_eq]
    constructor
    · intro h
      by_cases hc : (discoverLoop devices 0 (-1, -1)).1 = -1 ∨
          (discoverLoop devices 0 (-1, -1)).2 = -1
      · rcases hc with h1 | h2
        · left
          rcases discoverLoop_in devices with ⟨hnone, _⟩ | hlast
          · rintro ⟨d, hd, hp⟩
            exact hnone d hd hp
          · have := hlast.nonneg
            omega
        · right
          rcases discoverLoop_out devices with ⟨hnone, _⟩ | hlast
          · rintro ⟨d, hd, hp⟩
            exact hnone d hd hp
          · have := hlast.nonneg
            omega
      · rw [if_neg hc] at h
        exact absurd rfl h
    · intro h
      have hc : (discoverLoop devices 0 (-1, -1)).1 = -1 ∨
          (discoverLoop devices 0 (-1, -1)).2 = -1 := by
        rcases h with h1 | h2
        · left
          rcases discoverLoop_in devices with ⟨_, heq⟩ | hlast
          · exact heq
          · exact absurd hlast.exists_mem h1
        · right
          rcases discoverLoop_out devices with ⟨_, heq⟩ | hlast
          · exact heq
          · exact absurd hlast.exists_mem h2
      rw [if_pos hc]
      simp
  have hfail : (discover devices).2.2 ≠ none → discover devices = (0, 0, some errNoLaunchpad) := by
    intro h
    unfold discover at h ⊢
    by_cases h1 : (discoverLoop devices 0 (-1, -1)).1 = -1 <;>
      by_cases h2 : (discoverLoop devices 0 (-1, -1)).2 = -1 <;> simp_all
  refine ⟨hiff, hfail, ?_, by decide, by decide, by decide⟩
  intro hnames
  apply hfail
  rw [hiff]
  left
  rintro ⟨d, hd, hp⟩
  exact hnames d hd hp.1

/-- C5: whenever `discover` succeeds, the input id it returns is the index of
the last device of the list that is input-capable with a name containing
"Launchpad", and the output id is the index of the last device that is
output-capable with a name containing "Launchpad", each chosen on its own; on
two devices both named "Launchpad-ish", the first input-only and the second
output-only, `discover` succeeds with input 0 and output 1. -/
theorem discover_returns_last_candidates (devices : List DeviceInfo)
    (hok : (discover devices).2.2 = none) :
    IsLastIndexOf InputCandidate devices (discover devices).1
    ∧ IsLastIndexOf OutputCandidate devices (discover devices).2.1
    ∧ discover [⟨"Launchpad-ish", true, false⟩, ⟨"Launchpad-ish", false, true⟩]
        = (0, 1, none) := by
  obtain ⟨e1, e2, n1, n2⟩ := discover_ok_eq devices hok
  refine ⟨?_, ?_, by decide⟩
  · rw [e1]
    rcases discoverLoop_in devices with ⟨_, heq⟩ | hlast
    · exact absurd heq n1
    · exact hlast
  · rw [e2]
    rcases discoverLoop_out devices with ⟨_, heq⟩ | hlast
    · exact absurd heq n2
    · exact hlast

/-- C5 witness: four devices, the later of two matching devices wins in each
direction. -/
theorem discover_returns_last_candidates_witness :
    discover [⟨"Launchpad Mini", true, true⟩, ⟨"Keyboard", true, true⟩,
        ⟨"Launchpad S", true, false⟩, ⟨"Launchpad S", false, true⟩] = (2, 3, none)
    ∧ IsLastIndexOf InputCandidate
        [⟨"Launchpad Mini", true, true⟩, ⟨"Keyboard", true, true⟩,
          ⟨"Launchpad S", true, false⟩, ⟨"Launchpad S", false, true⟩] 2
    ∧ IsLastIndexOf OutputCandidate
        [⟨"Launchpad Mini", true, true⟩, ⟨"Keyboard", true, true⟩,
          ⟨"Launchpad S", true, false⟩, ⟨"Launchpad S", false, true⟩] 3 :=
  ⟨by decide,
   (discover_returns_last_candidates
      [⟨"Launchpad Mini", true, true⟩, ⟨"Keyboard", true, true⟩,
        ⟨"Launchpad S", true, false⟩, ⟨"Launchpad S", false, true⟩] (by decide)).1,
   (discover_returns_last_candidates
      [⟨"Launchpad Mini", true, true⟩, ⟨"Keyboard", true, true⟩,
        ⟨"Launchpad S", true, false⟩, ⟨"Launchpad S", false, true⟩] (by decide)).2.1⟩

/-! ## `Cleanup` and `New` on a failure -/

/-- C6, the code at the failing input: on a driver whose input stream fails
to close with `err` (whatever `err` and whatever the output stream), `Cleanup`
returns `err` after a single `Close` call, the one on the input stream; the
output stream receives no call and stays open. -/
theorem Cleanup_skips_output_after_input_failure (err : Error) (out : Stream) :
    (Cleanup { inputStream := scripted [] none (some err), outputStream := out }).1 = some err
    ∧ (Cleanup { inputStream := scripted [] none (some err),
                 outputStream := out }).2.inputStream.calls = [StreamCall.Close]
    ∧ (Cleanup { inputStream := scripted [] none (some err),
                 outputStream := out }).2.outputStream.calls = out.calls
    ∧ (Cleanup { inputStream := scripted [] none (some "close failed"),
                 outputStream := scripted [] none none }).2.outputStream.isOpen = true := by
  refine ⟨rfl, rfl, rfl, by decide⟩

/-- C7, the code at the failing input: with one device "Launchpad" capable of
both directions, an input stream that opens (as `inStream`) and an output
stream that fails to open with `err`, `New` returns no driver and `err`, and
the input stream it opened has received no call: it was not closed. -/
theorem New_leaves_input_open_after_output_failure (err : Error) (inStream : Stream) :
    (New { devices := [⟨"Launchpad", true, true⟩],
           onNewInputStream := fun _ _ => Except.ok inStream,
           onNewOutputStream := fun _ _ _ => Except.error err }).pad.isNone = true
    ∧ (New { devices := [⟨"Launchpad", true, true⟩],
             onNewInputStream := fun _ _ => Except.ok inStream,
             onNewOutputStream := fun _ _ _ => Except.error err }).err = some err
    ∧ (New { devices := [⟨"Launchpad", true, true⟩],
             onNewInputStream := fun _ _ => Except.ok inStream,
             onNewOutputStream := fun _ _ _ => Except.error err }).opened.map Stream.calls
        = [inStream.calls]
    ∧ (New { devices := [⟨"Launchpad", true, true⟩],
             onNewInputStream := fun _ _ => Except.ok (scripted [] none none),
             onNewOutputStream := fun _ _ _ => Except.error "host error" }).opened.map
          Stream.isOpen = [true] := by
  have hd : discover [⟨"Launchpad", true, true⟩] = (0, 0, none) := by decide
  refine ⟨?_, ?_, ?_, ?_⟩ <;> simp [New, hd, Stream.isOpen, scripted]

/-! ## `Listen` -/

theorem foldl_send (hits : List Hit) (trace : List Action) :
    hits.foldl (fun tr hit => tr ++ [Action.Send hit]) trace
      = trace ++ hits.map Action.Send := by
  induction hits generalizing trace with
  | nil => simp
  | cons h rest ih => simp [List.foldl_cons, ih]

theorem listenIter_eq (l : Launchpad) (trace : List Action) :
    listenIter (l, trace) = ((Read l).2, trace ++ tickActions (Read l).1) := by
  unfold listenIter tickActions
  rcases hR : Read l with ⟨⟨hits, err⟩, pad⟩
  cases err with
  | some e => simp
  | none => simp [foldl_send]

theorem listenLoop_trace (n : Nat) (l : Launchpad) (trace : List Action) :
    (listenLoop n (l, trace)).2 = trace ++ (readOutcomes n l).flatMap tickActions := by
  induction n generalizing l trace with
  | zero => simp [listenLoop, readOutcomes]
  | succ n ih =>
    rw [listenLoop, listenIter_eq, ih, readOutcomes, List.flatMap_cons, List.append_assoc]

theorem sentHits_append (a b : List Action) :
    sentHits (a ++ b) = sentHits a ++ sentHits b := by
  induction a with
  | nil => rfl
  | cons x rest ih =>
    cases x <;> simp [sentHits, ih]

theorem sentHits_map_send (hits : List Hit) :
    sentHits (hits.map Action.Send) = hits := by
  induction hits with
  | nil => rfl
  | cons h rest ih => simp [sentHits, ih]

theorem sentHits_tickActions (o : List Hit × Option Error) :
    sentHits (tickActions o) = if o.2 = none then o.1 else [] := by
  unfold tickActions
  rw [sentHits_append]
  by_cases h : o.2 = none
  · simp [h, sentHits, sentHits_map_send]
  · simp [h, sentHits]

theorem sentHits_flatMap (os : List (List Hit × Option Error)) :
    sentHits (os.flatMap tickActions) = os.flatMap (fun o => if o.2 = none then o.1 else []) := by
  induction os with
  | nil => rfl
  | cons o rest ih =>
    rw [List.flatMap_cons, List.flatMap_cons, sentHits_append, sentHits_tickActions, ih]

theorem Read_fst (l : Launchpad) :
    (Read l).1 = readOutcomeOf (l.inputStream.onRead l.inputStream.calls 64) := by
  cases h : l.inputStream.onRead l.inputStream.calls 64 with
  | error err => rw [Read_error l err h]; rfl
  | ok evts => rw [Read_ok l evts h]; rfl

theorem Read_snd_inputStream (l : Launchpad) :
    (Read l).2.inputStream.onRead = l.inputStream.onRead ∧
    (Read l).2.inputStream.calls = l.inputStream.calls ++ [StreamCall.Read 64] := by
  cases h : l.inputStream.onRead l.inputStream.calls 64 with
  | error err => rw [Read_error l err h]; exact ⟨rfl, rfl⟩
  | ok evts => rw [Read_ok l evts h]; exact ⟨rfl, rfl⟩

/-- A driver whose input stream replays `pre ++ rest` and has already
answered `pre` goes through the outcomes of `rest`. -/
theorem readOutcomes_replay (rest pre : List (Except Error (List Event))) (l : Launchpad)
    (hon : l.inputStream.onRead = (scripted (pre ++ rest) none none).onRead)
    (hk : l.inputStream.calls.length = pre.length) :
    readOutcomes rest.length l = rest.map readOutcomeOf := by
  induction rest generalizing pre l with
  | nil => rfl
  | cons o rest ih =>
    obtain ⟨h1, h2⟩ := Read_snd_inputStream l
    have hhead : (Read l).1 = readOutcomeOf o := by
      have hget : (pre ++ o :: rest).get? pre.length = some o := by
        rw [List.get?_eq_getElem?, List.getElem?_append_right (Nat.le_refl _)]
        simp
      rw [Read_fst, hon]
      simp only [scripted, hk, hget, Option.getD_some]
    have htail := ih (pre ++ [o]) (Read l).2
      (by rw [h1, hon]; simp)
      (by rw [h2]; simp [hk])
    simp only [List.length_cons, readOutcomes, List.map_cons]
    rw [hhead, htail]

/-- C8: after `n` ticks of the loop started by `Listen`, what the goroutine
has done is, tick after tick, a sleep of 10 ms, one `Read`, and then, when
that `Read` returned no error, the send of each of its hits in order; so the
hits sent to the consumer are the concatenation, in order, of the batches of
the successful reads, a failed read contributing nothing and not stopping the
loop, and all hits of a batch are sent before the next `Read`.  Every finite
sequence `outs` of answers of the input stream is the start of such a run, and
then the hits sent are the decoded batches of the successful answers; on
batch, batch, error, batch all hits of the three batches arrive in order. -/
theorem Listen_sends_batches_in_order (l : Launchpad) (n : Nat)
    (outs : List (Except Error (List Event))) :
    (Listen l n).2 = (readOutcomes n l).flatMap tickActions
    ∧ sentHits (Listen l n).2
        = (readOutcomes n l).flatMap (fun o => if o.2 = none then o.1 else [])
    ∧ (readOutcomes n l).length = n
    ∧ readOutcomes outs.length (padReading outs) = outs.map readOutcomeOf
    ∧ sentHits (Listen (padReading outs) outs.length).2
        = outs.flatMap (fun o =>
            match o with
            | Except.ok evts => evts.foldl readStep []
            | Except.error _ => [])
    ∧ sentHits (Listen (padReading
          [Except.ok [⟨0, 5, 10⟩, ⟨1, 112, 1⟩], Except.ok [⟨2, 7, 3⟩, ⟨3, 7, 0⟩],
           Except.error "host error", Except.ok [⟨4, 0, 1⟩]]) 4).2
        = [⟨5, 7⟩, ⟨0, 0⟩, ⟨7, 7⟩, ⟨0, 7⟩] := by
  have htrace : ∀ (l : Launchpad) (n : Nat),
      (Listen l n).2 = (readOutcomes n l).flatMap tickActions := by
    intro l n
    unfold Listen
    rw [listenLoop_trace, List.nil_append]
  have hreplay : readOutcomes outs.length (padReading outs) = outs.map readOutcomeOf :=
    readOutcomes_replay outs [] (padReading outs) rfl rfl
  refine ⟨htrace l n, ?_, ?_, hreplay, ?_, by decide⟩
  · rw [htrace, sentHits_flatMap]
  · clear hreplay
    induction n generalizing l with
    | zero => rfl
    | succ n ih => simp [readOutcomes, ih]
  · rw [htrace, sentHits_flatMap, hreplay, List.flatMap_map]
    congr 1
    funext o
    cases o <;> simp [readOutcomeOf]

end Launchpad
